import Mathlib

/-!
Shallow embedding of the chord-analysis engine of
`bass_assistant_v1.py` (Bass Guitar Chord Assistant).

Python strings are modelled as Lean `String`; the handful of Python
string operations the engine uses (`strip`, `lower`, `split`, the
substring test `in`) are modelled by explicit list-based helpers below.
A Python expression that raises an exception is modelled by `Option`
(`none` = the call raises).
-/

namespace BassAssistant

/-- Python `needle in hay` (substring containment). -/
def strContains (needle hay : String) : Bool :=
  (List.range (hay.toList.length + 1)).any
    (fun i => needle.toList.isPrefixOf (hay.toList.drop i))

/-- Python `s.strip()`: remove leading and trailing whitespace. -/
def pyStrip (s : String) : String :=
  String.mk (((s.toList.dropWhile Char.isWhitespace).reverse.dropWhile
      Char.isWhitespace).reverse)

/-- ASCII lower-casing of one character, as Python `str.lower` acts on
the ASCII chord suffixes that occur here. -/
def lowerChar (c : Char) : Char :=
  if 'A' ≤ c ∧ c ≤ 'Z' then Char.ofNat (c.toNat + 32) else c

/-- Python `s.lower()` (on the ASCII strings the engine handles). -/
def pyLower (s : String) : String :=
  String.mk (s.toList.map lowerChar)

/-- Python `str.split(sep)` for a one-character separator: splits on
every occurrence; the empty string yields `[""]`. -/
def splitOnChar (sep : Char) : List Char → List (List Char)
  | [] => [[]]
  | c :: cs =>
    if c = sep then [] :: splitOnChar sep cs
    else
      match splitOnChar sep cs with
      | [] => [[c]]
      | h :: t => (c :: h) :: t

/-- Python `s.split(sep)` on strings. -/
def pySplit (sep : Char) (s : String) : List String :=
  (splitOnChar sep s.toList).map String.mk

/-- `NOTE_TO_PITCH` dictionary; `none` models a key that is absent. -/
def NOTE_TO_PITCH : String → Option Nat
  | "C" => some 0 | "C#" => some 1 | "Db" => some 1 | "D" => some 2
  | "D#" => some 3 | "Eb" => some 3 | "E" => some 4 | "F" => some 5
  | "F#" => some 6 | "Gb" => some 6 | "G" => some 7 | "G#" => some 8
  | "Ab" => some 8 | "A" => some 9 | "A#" => some 10 | "Bb" => some 10
  | "B" => some 11
  | _ => none

/-- `PITCH_TO_NOTE_SHARP` dictionary (total on the residues 0..11 the
engine ever passes to it). -/
def PITCH_TO_NOTE_SHARP : Nat → String
  | 0 => "C" | 1 => "C#" | 2 => "D" | 3 => "D#" | 4 => "E" | 5 => "F"
  | 6 => "F#" | 7 => "G" | 8 => "G#" | 9 => "A" | 10 => "A#" | 11 => "B"
  | _ => ""

/-- `PITCH_TO_NOTE_FLAT` dictionary. -/
def PITCH_TO_NOTE_FLAT : Nat → String
  | 0 => "C" | 1 => "Db" | 2 => "D" | 3 => "Eb" | 4 => "E" | 5 => "F"
  | 6 => "Gb" | 7 => "G" | 8 => "Ab" | 9 => "A" | 10 => "Bb" | 11 => "B"
  | _ => ""

/-- `CHORD_FORMULAS` dictionary. -/
def CHORD_FORMULAS : String → Option (List Nat)
  | "" => some [0, 4, 7]
  | "m" => some [0, 3, 7]
  | "7" => some [0, 4, 7, 10]
  | "m7" => some [0, 3, 7, 10]
  | "maj7" => some [0, 4, 7, 11]
  | "dim" => some [0, 3, 6]
  | "dim7" => some [0, 3, 6, 9]
  | "aug" => some [0, 4, 8]
  | "+" => some [0, 4, 8]
  | "sus4" => some [0, 5, 7]
  | "sus2" => some [0, 2, 7]
  | "6" => some [0, 4, 7, 9]
  | "7sus4" => some [0, 5, 7, 10]
  | "m7b5" => some [0, 3, 6, 10]
  | _ => none

/-- `SCALE_DEGREES_MAJOR`. -/
def SCALE_DEGREES_MAJOR : List String :=
  ["I", "ii", "iii", "IV", "V", "vi", "vii°"]

/-- `SCALE_DEGREES_MINOR`. -/
def SCALE_DEGREES_MINOR : List String :=
  ["i", "ii°", "III", "iv", "v", "VI", "VII"]

/-- `BASS_TUNINGS` dictionary: string names (high to low) with their
base pitches; `none` models the `KeyError` on any other string count. -/
def BASS_TUNINGS : Nat → Option (List (String × Nat))
  | 4 => some [("G", 55), ("D", 50), ("A", 45), ("E", 40)]
  | 5 => some [("G", 55), ("D", 50), ("A", 45), ("E", 40), ("B", 35)]
  | _ => none

/-- `FRETS = 5`. -/
def FRETS : Nat := 5

/-- The `NoteType` enum. -/
inductive NoteType
  | BASS_NOTE
  | CHORD_NOTE
  | NOT_IN_CHORD
deriving DecidableEq

/-- State of a `Chord` object after `__init__`/`parse` have run.
The Python attribute `section` is renamed `sectionLabel` (keyword). -/
structure Chord where
  symbol : String
  sectionLabel : String
  root : String
  bass_note : String
  suffix : String
deriving DecidableEq

/-- The regex `^([A-G][#b]?)` of `Chord.parse`: an A..G letter with an
optional accidental, anchored at the start. -/
def matchNoteRoot (s : String) : Option String :=
  match s.toList with
  | [] => none
  | c :: rest =>
    if 'A' ≤ c ∧ c ≤ 'G' then
      match rest with
      | [] => some (String.mk [c])
      | c2 :: _ =>
        if c2 = '#' ∨ c2 = 'b' then some (String.mk [c, c2])
        else some (String.mk [c])
    else none

/-- Root extraction from the chord part (`Chord.parse` lines 89-95):
the regex match, or the first character as fallback (empty string when
the chord part is empty). -/
def root_of_chord_part (cp : String) : String :=
  match matchNoteRoot cp with
  | some r => r
  | none => String.mk (cp.toList.take 1)

/-- Suffix extraction from the chord part (`Chord.parse` lines 92-96):
the rest after the root, lower-cased and stripped. -/
def suffix_of_chord_part (cp : String) : String :=
  match matchNoteRoot cp with
  | some r => pyStrip (pyLower (String.mk (cp.toList.drop r.toList.length)))
  | none =>
    if cp.toList.length > 1 then pyStrip (pyLower (String.mk (cp.toList.drop 1)))
    else ""

/-- `Chord.__init__` followed by `Chord.parse`.  Python computes the
split parts only inside the slash branch; they are hoisted here as pure
values, selected by the same `'/' in symbol` test. -/
def Chord.parse (rawSymbol sectionLabel : String) : Chord :=
  let symbol := pyStrip rawSymbol
  let chord_part :=
    if strContains "/" symbol then pyStrip ((pySplit '/' symbol).getD 0 "")
    else symbol
  let bassRaw : Option String :=
    if strContains "/" symbol then some (pyStrip ((pySplit '/' symbol).getD 1 ""))
    else none
  let root := root_of_chord_part chord_part
  let suffix := suffix_of_chord_part chord_part
  let bass_note :=
    match bassRaw with
    | none => root
    | some b => if b = "" then root else b
  { symbol := symbol, sectionLabel := sectionLabel, root := root,
    bass_note := bass_note, suffix := suffix }

/-- Multiplicity of `x` in `l`, as `collections.Counter` counts it. -/
def countStr (x : String) (l : List String) : Nat :=
  (l.filter (fun y => y == x)).length

/-- The distinct elements of `l` in order of first occurrence: the key
order of `collections.Counter(l)` (insertion order). -/
def keysInOrder : List String → List String
  | [] => []
  | x :: xs => x :: (keysInOrder xs).filter (fun y => y != x)

/-- `x` has maximal multiplicity among the elements of `roots`. -/
def maxCountPred (roots : List String) (x : String) : Bool :=
  roots.all (fun y => decide (countStr y roots ≤ countStr x roots))

/-- `Counter(roots).most_common(1)[0][0]`: `heapq.nlargest(1, items)`
is the first item of a stable descending sort of the counter items, so
it returns, in counter insertion order (order of first occurrence), the
first key whose count is maximal. -/
def most_common_root (roots : List String) : String :=
  ((keysInOrder roots).find? (maxCountPred roots)).getD ""

/-- `roots = [chord.root for chord in self.chords if chord.root]`
(inside `Song.detect_key`). -/
def rootsOf (chords : List Chord) : List String :=
  (chords.filter (fun c => c.root != "")).map Chord.root

/-- The minor test of `Song.detect_key` line 134 applied to one chord:
suffix contains `m` but neither `maj` nor `dim`. -/
def minorSuffix (suffix : String) : Bool :=
  strContains "m" suffix && !strContains "maj" suffix && !strContains "dim" suffix

/-- `Song.detect_key`. -/
def detect_key (chords : List Chord) : String :=
  if chords.isEmpty then "C"
  else
    let roots := rootsOf chords
    if roots.isEmpty then "C"
    else
      let most := most_common_root roots
      let is_minor := chords.any (fun c => c.root == most && minorSuffix c.suffix)
      most ++ (if is_minor then "m" else "")

/-- `BassCard` is constructed from a `Chord`, the song key (`None`
until detected or set) and the string count; its derived fields are
modelled as the functions below. -/
def is_minor_key_str (k : String) : Bool :=
  strContains "m" k && !strContains "maj" k && !strContains "dim" k

/-- Lines 166-191 of `BassCard._get_scale_degree`: from the two pitch
classes and the key type to the degree label.  Python `%` on a possibly
negative int with positive modulus agrees with `Int.emod`. -/
def scale_degree_from (root_pitch key_pitch : Nat) (is_minor_key : Bool) : String :=
  let degree := (((root_pitch : Int) - (key_pitch : Int)) % 12).toNat
  let scale_degrees := if is_minor_key then SCALE_DEGREES_MINOR else SCALE_DEGREES_MAJOR
  if degree = 0 then scale_degrees.getD 0 ""
  else if degree = 2 then scale_degrees.getD 1 ""
  else if degree = 4 then scale_degrees.getD 2 ""
  else if degree = 5 then scale_degrees.getD 3 ""
  else if degree = 7 then scale_degrees.getD 4 ""
  else if degree = 9 then scale_degrees.getD 5 ""
  else if degree = 11 then scale_degrees.getD 6 ""
  else "? (" ++ Nat.repr degree ++ ")"

/-- `BassCard._get_scale_degree`; `key = none` models Python `None`
(falsy, like the empty string). -/
def get_scale_degree (chord : Chord) (key : Option String) : String :=
  match key with
  | none => "?"
  | some k =>
    if k = "" then "?"
    else if chord.root = "" then "?"
    else
      scale_degree_from
        ((NOTE_TO_PITCH chord.root).getD 0)
        ((NOTE_TO_PITCH ((matchNoteRoot k).getD "C")).getD 0)
        (is_minor_key_str k)

/-- The sharp-or-flat spelling test of lines 207 and 244:
`any(accidental in self.key for accidental in ['#', 'm']) or
'#' in self.chord.root`. -/
def useSharpNames (chord : Chord) (k : String) : Bool :=
  strContains "#" k || strContains "m" k || strContains "#" chord.root

/-- `BassCard._get_chord_notes`.  With `key = None` and a non-empty
root, line 207 evaluates `'#' in None` and raises `TypeError`; the
raise is modelled as `none`. -/
def get_chord_notes (chord : Chord) (key : Option String) : Option (List String) :=
  if chord.root = "" then some ["?"]
  else
    match key with
    | none => none
    | some k =>
      let root_pitch := (NOTE_TO_PITCH chord.root).getD 0
      let formula := (CHORD_FORMULAS chord.suffix).getD [0, 4, 7]
      let note_pitches := formula.map (fun interval => (root_pitch + interval) % 12)
      some (note_pitches.map (fun p =>
        if useSharpNames chord k then PITCH_TO_NOTE_SHARP p else PITCH_TO_NOTE_FLAT p))

/-- `BassCard._get_chord_note_pitches`. -/
def get_chord_note_pitches (chord : Chord) : List Nat :=
  if chord.root = "" then []
  else
    let root_pitch := (NOTE_TO_PITCH chord.root).getD 0
    let formula := (CHORD_FORMULAS chord.suffix).getD [0, 4, 7]
    formula.map (fun interval => (root_pitch + interval) % 12)

/-- `self.bass_pitch = NOTE_TO_PITCH.get(chord.bass_note, 0)`. -/
def bass_pitch (chord : Chord) : Nat :=
  (NOTE_TO_PITCH chord.bass_note).getD 0

/-- `BassCard._generate_fretboard`.  An unknown string count raises
`KeyError` on `BASS_TUNINGS[...]`, and a `None` key raises `TypeError`
at the spelling test of line 244; both raises are modelled as `none`. -/
def generate_fretboard (chord : Chord) (key : Option String) (string_count : Nat) :
    Option (List (String × List (NoteType × String))) :=
  match BASS_TUNINGS string_count with
  | none => none
  | some bass_strings =>
    match key with
    | none => none
    | some k =>
      let chord_pitches := get_chord_note_pitches chord
      let bass_pitch_class := bass_pitch chord
      some (bass_strings.map (fun sp =>
        (sp.1, (List.range (FRETS + 1)).map (fun fret =>
          let note_pitch := (sp.2 + fret) % 12
          let note_name :=
            if useSharpNames chord k then PITCH_TO_NOTE_SHARP note_pitch
            else PITCH_TO_NOTE_FLAT note_pitch
          if note_pitch = bass_pitch_class then (NoteType.BASS_NOTE, note_name)
          else if note_pitch ∈ chord_pitches then (NoteType.CHORD_NOTE, note_name)
          else (NoteType.NOT_IN_CHORD, note_name)))))

/-! Claim-side (specification) definitions, written from the words of
the specification, to be compared with the source-side functions. -/

/-- Specification reading of key detection: the most frequent root with
ties broken by first appearance in the sequence is the first element of
the sequence whose multiplicity is maximal. -/
def specMostFrequentFirst (roots : List String) : Option String :=
  roots.find? (maxCountPred roots)

/-- The fixed major scale-degree table of the specification. -/
def major_degree_label : Nat → String
  | 0 => "I" | 2 => "ii" | 4 => "iii" | 5 => "IV" | 7 => "V" | 9 => "vi"
  | 11 => "vii°"
  | _ => "?"

/-- The corresponding minor scale-degree table. -/
def minor_degree_label : Nat → String
  | 0 => "i" | 2 => "ii°" | 4 => "III" | 5 => "iv" | 7 => "v" | 9 => "VI"
  | 11 => "VII"
  | _ => "?"

/-- Ready-made chords for the worked examples of the specification. -/
def cMajorChord : Chord := ⟨"C", "", "C", "C", ""⟩

/-- The chord `Am7` (root A, suffix m7, bass A). -/
def am7Chord : Chord := ⟨"Am7", "", "A", "A", "m7"⟩

/-- The chord `G` (root G, bass G, empty suffix). -/
def gMajorChord : Chord := ⟨"G", "", "G", "G", ""⟩

/-- A chord with a root outside the note table, as fallback parsing of
the token `H7` produces. -/
def hChord : Chord := ⟨"H7", "", "H", "H", "7"⟩

/-- The chord sequence `[Em, C, B, Em, C, B, Em, C]` of the key
detection example. -/
def exampleChordsEm : List Chord :=
  [⟨"Em", "", "E", "E", "m"⟩, ⟨"C", "", "C", "C", ""⟩, ⟨"B", "", "B", "B", ""⟩,
   ⟨"Em", "", "E", "E", "m"⟩, ⟨"C", "", "C", "C", ""⟩, ⟨"B", "", "B", "B", ""⟩,
   ⟨"Em", "", "E", "E", "m"⟩, ⟨"C", "", "C", "C", ""⟩]

/-! Theorems settling the claims. -/

/-- C1 (counterexample): for key `Am` and chord root `C` the scale
degree is the string with a space, `"? (3)"`, not `"?(3)"`, so the
claimed exact label is wrong. -/
theorem C1_counterexample :
    get_scale_degree cMajorChord (some "Am") = "? (3)" ∧ "? (3)" ≠ "?(3)" := by
  decide

/-- C1 (amended): for every chord and key where root and key are
non-empty and the degree semitones are not in {0,2,4,5,7,9,11}, the
scale degree is exactly `"? ("` followed by the decimal degree followed
by `")"` (note the space after the question mark). -/
theorem C1_nondiatonic_label (chord : Chord) (k : String) (d : Nat)
    (hroot : chord.root ≠ "") (hkey : k ≠ "")
    (hd : d = ((((NOTE_TO_PITCH chord.root).getD 0 : Int) -
        ((NOTE_TO_PITCH ((matchNoteRoot k).getD "C")).getD 0 : Int)) % 12).toNat)
    (hnd : ¬(d = 0 ∨ d = 2 ∨ d = 4 ∨ d = 5 ∨ d = 7 ∨ d = 9 ∨ d = 11)) :
    get_scale_degree chord (some k) = "? (" ++ Nat.repr d ++ ")" := by
  push_neg at hnd
  obtain ⟨h0, h2, h4, h5, h7, h9, h11⟩ := hnd
  subst hd
  simp [get_scale_degree, scale_degree_from, hkey, hroot, h0, h2, h4, h5, h7, h9, h11]

/-- C1 (witness): the amended theorem applied at key `Am`, chord root
`C`, degree 3. -/
theorem C1_witness :
    get_scale_degree cMajorChord (some "Am") = "? (" ++ Nat.repr 3 ++ ")" :=
  C1_nondiatonic_label cMajorChord "Am" 3 (by decide) (by decide) (by decide) (by decide)

/-- C2 (code bug evaluated): with a `None` key and a non-empty chord
root, `_get_chord_notes` reaches `'#' in self.key` and raises
`TypeError` instead of returning a fallback; `_generate_fretboard`
raises the same way.  Both raises are modelled as `none`. -/
theorem C2_null_key_raises :
    get_chord_notes cMajorChord none = none ∧
    generate_fretboard cMajorChord none 4 = none := by
  decide

/-- C3 (counterexample): with the empty-string key and the non-empty
root `C`, the chord-tones operation returns the computed note names,
not `["?"]`. -/
theorem C3_counterexample :
    get_chord_notes cMajorChord (some "") = some ["C", "E", "G"] ∧
    (some ["C", "E", "G"] : Option (List String)) ≠ some ["?"] := by
  decide

/-- C3 (amended): the `["?"]` chord-tones fallback is produced exactly
when the chord root is empty, for any key (including the absent key);
a missing key with a non-empty root does not produce it. -/
theorem C3_empty_root_fallback (chord : Chord) (key : Option String)
    (h : chord.root = "") : get_chord_notes chord key = some ["?"] := by
  simp [get_chord_notes, h]

/-- C3 (witness): the amended theorem at a rootless chord with absent
key. -/
theorem C3_witness : get_chord_notes ⟨"", "", "", "", ""⟩ none = some ["?"] :=
  C3_empty_root_fallback ⟨"", "", "", "", ""⟩ none rfl

/-- C4 (counterexample): for the token `C/E/G` the parser sets the bass
note to `E` (the segment between the first and second slash), not to
the whole remainder `E/G` as claimed. -/
theorem C4_counterexample :
    (Chord.parse "C/E/G" "").bass_note = "E" ∧ ("E" : String) ≠ "E/G" := by
  decide

/-- C4 (amended): a token containing `/` is split on every occurrence;
the chord part is the trimmed segment before the first slash, the bass
note is the trimmed segment between the first and second slash
(segments after the second slash are discarded), and an empty bass
segment falls back to the root. -/
theorem C4_slash_split (s sec : String) (h : strContains "/" (pyStrip s) = true) :
    (Chord.parse s sec).root =
      root_of_chord_part (pyStrip ((pySplit '/' (pyStrip s)).getD 0 "")) ∧
    (Chord.parse s sec).bass_note =
      (if pyStrip ((pySplit '/' (pyStrip s)).getD 1 "") = ""
       then (Chord.parse s sec).root
       else pyStrip ((pySplit '/' (pyStrip s)).getD 1 "")) := by
  simp [Chord.parse, h]

/-- C4 (witness): the amended theorem at the token `C/E/G`. -/
theorem C4_witness :
    (Chord.parse "C/E/G" "").root =
      root_of_chord_part (pyStrip ((pySplit '/' (pyStrip "C/E/G")).getD 0 "")) ∧
    (Chord.parse "C/E/G" "").bass_note =
      (if pyStrip ((pySplit '/' (pyStrip "C/E/G")).getD 1 "") = ""
       then (Chord.parse "C/E/G" "").root
       else pyStrip ((pySplit '/' (pyStrip "C/E/G")).getD 1 "")) :=
  C4_slash_split "C/E/G" "" (by decide)

/-- C5 (counterexample): the token `/` is non-empty and not
whitespace-only, yet the constructed chord has an empty bass note, so
the claimed invariant fails. -/
theorem C5_counterexample :
    ("/" : String) ≠ "" ∧ pyStrip "/" ≠ "" ∧ (Chord.parse "/" "").bass_note = "" := by
  decide

/-- C5 (amended): the bass note is non-empty after construction
whenever the parsed root is non-empty (equivalently, whenever the text
before the first slash does not trim to the empty string); the
caller-side empty/whitespace filter alone does not guarantee it. -/
theorem C5_bass_note_nonempty (s sec : String)
    (h : (Chord.parse s sec).root ≠ "") : (Chord.parse s sec).bass_note ≠ "" := by
  simp only [Chord.parse] at h ⊢
  by_cases hs : strContains "/" (pyStrip s) = true
  · simp only [hs, if_true, if_pos] at h ⊢
    split
    · exact h
    · assumption
  · simp only [hs, if_false, if_neg] at h ⊢
    exact h

/-- C5 (witness): the amended theorem at the token `C`. -/
theorem C5_witness : (Chord.parse "C" "").bass_note ≠ "" :=
  C5_bass_note_nonempty "C" "" (by decide)

/-- C7: with a non-empty root and non-empty key the chord notes are one
name per formula entry, in formula order, shifted from the root pitch,
with the table chosen by the sharp test; `Am7` under `Em` gives pitch
classes `[9,0,4,7]` and names `A, C, E, G`. -/
theorem C7_chord_tones :
    (∀ (chord : Chord) (k : String), chord.root ≠ "" → k ≠ "" →
      get_chord_notes chord (some k) =
        some (((CHORD_FORMULAS chord.suffix).getD [0, 4, 7]).map (fun off =>
          (if useSharpNames chord k then PITCH_TO_NOTE_SHARP else PITCH_TO_NOTE_FLAT)
            (((NOTE_TO_PITCH chord.root).getD 0 + off) % 12)))) ∧
    get_chord_note_pitches am7Chord = [9, 0, 4, 7] ∧
    get_chord_notes am7Chord (some "Em") = some ["A", "C", "E", "G"] := by
  refine ⟨?_, by decide, by decide⟩
  intro chord k hroot _
  by_cases huse : useSharpNames chord k = true <;>
    simp [get_chord_notes, hroot, huse, Function.comp]

/-- C7 (witness): the general statement applied to `Am7` under key
`Em`. -/
theorem C7_witness :
    get_chord_notes am7Chord (some "Em") =
      some (((CHORD_FORMULAS am7Chord.suffix).getD [0, 4, 7]).map (fun off =>
        (if useSharpNames am7Chord "Em" then PITCH_TO_NOTE_SHARP else PITCH_TO_NOTE_FLAT)
          (((NOTE_TO_PITCH am7Chord.root).getD 0 + off) % 12))) :=
  C7_chord_tones.1 am7Chord "Em" (by decide) (by decide)

/-- C9: diatonic degree semitones are mapped through the fixed major
table, or the minor table when the key contains `m` without `maj` or
`dim`; key `C` with root `G` gives `V`; an empty root, an empty key, or
an absent key give `?`. -/
theorem C9_diatonic_label :
    (∀ (chord : Chord) (k : String) (d : Nat), chord.root ≠ "" → k ≠ "" →
      d = ((((NOTE_TO_PITCH chord.root).getD 0 : Int) -
          ((NOTE_TO_PITCH ((matchNoteRoot k).getD "C")).getD 0 : Int)) % 12).toNat →
      (d = 0 ∨ d = 2 ∨ d = 4 ∨ d = 5 ∨ d = 7 ∨ d = 9 ∨ d = 11) →
      get_scale_degree chord (some k) =
        (if is_minor_key_str k then minor_degree_label d else major_degree_label d)) ∧
    get_scale_degree gMajorChord (some "C") = "V" ∧
    (∀ (chord : Chord) (key : Option String), chord.root = "" →
      get_scale_degree chord key = "?") ∧
    (∀ chord : Chord, get_scale_degree chord (some "") = "?" ∧
      get_scale_degree chord none = "?") := by
  refine ⟨?_, by decide, ?_, ?_⟩
  · intro chord k d hroot hkey hd hdia
    subst hd
    rcases hdia with h | h | h | h | h | h | h <;>
      cases hm : is_minor_key_str k <;>
        simp [get_scale_degree, scale_degree_from, hkey, hroot, h, hm,
          SCALE_DEGREES_MAJOR, SCALE_DEGREES_MINOR, major_degree_label,
          minor_degree_label]
  · intro chord key h
    cases key with
    | none => rfl
    | some k =>
      by_cases hk : k = "" <;> simp [get_scale_degree, hk, h]
  · intro chord
    exact ⟨by simp [get_scale_degree], rfl⟩

/-- C9 (witness): the general statement applied to key `C` and root
`G`, degree 7. -/
theorem C9_witness :
    get_scale_degree gMajorChord (some "C") =
      (if is_minor_key_str "C" then minor_degree_label 7 else major_degree_label 7) :=
  C9_diatonic_label.1 gMajorChord "C" 7 (by decide) (by decide) (by decide) (by decide)

/-- C10 (amended): an unrecognized bass name gives bass pitch class 0;
a non-empty unrecognized root gives chord-tone pitch classes computed
from root pitch 0 and a scale degree computed as if the root were `C`;
an unparsable key root is treated as `C` (key pitch 0).  The empty
root instead takes the dedicated empty-root fallbacks. -/
theorem C10_unknown_name_fallback :
    (∀ chord : Chord, NOTE_TO_PITCH chord.bass_note = none → bass_pitch chord = 0) ∧
    (∀ chord : Chord, NOTE_TO_PITCH chord.root = none → chord.root ≠ "" →
      get_chord_note_pitches chord =
        ((CHORD_FORMULAS chord.suffix).getD [0, 4, 7]).map
          (fun interval => (0 + interval) % 12)) ∧
    (∀ (chord : Chord) (key : Option String), NOTE_TO_PITCH chord.root = none →
      chord.root ≠ "" →
      get_scale_degree chord key = get_scale_degree { chord with root := "C" } key) ∧
    (∀ (chord : Chord) (k : String), k ≠ "" → chord.root ≠ "" →
      matchNoteRoot k = none →
      get_scale_degree chord (some k) =
        scale_degree_from ((NOTE_TO_PITCH chord.root).getD 0)
          ((NOTE_TO_PITCH "C").getD 0) (is_minor_key_str k)) := by
  refine ⟨?_, ?_, ?_, ?_⟩
  · intro chord h
    simp [bass_pitch, h]
  · intro chord h hroot
    simp [get_chord_note_pitches, hroot, h]
  · intro chord key h hroot
    cases key with
    | none => rfl
    | some k =>
      by_cases hk : k = ""
      · simp [get_scale_degree, hk]
      · have hC : NOTE_TO_PITCH "C" = some 0 := by decide
        simp [get_scale_degree, hk, hroot, h, hC]
  · intro chord k hk hroot hmatch
    simp [get_scale_degree, hk, hroot, hmatch]

/-- C10 (counterexample to the universal claim): the empty root is also
absent from the note table, but its chord-tone pitch classes are `[]`,
not the classes computed from root pitch 0. -/
theorem C10_counterexample :
    NOTE_TO_PITCH (⟨"", "", "", "", ""⟩ : Chord).root = none ∧
    get_chord_note_pitches ⟨"", "", "", "", ""⟩ = [] ∧
    ([] : List Nat) ≠
      ((CHORD_FORMULAS (⟨"", "", "", "", ""⟩ : Chord).suffix).getD [0, 4, 7]).map
        (fun interval => (0 + interval) % 12) := by
  decide

/-- C10 (witness): the amended theorem at the fallback-parsed chord
`H7` with keys `C` and `zz`. -/
theorem C10_witness :
    bass_pitch hChord = 0 ∧
    get_chord_note_pitches hChord =
      ((CHORD_FORMULAS hChord.suffix).getD [0, 4, 7]).map
        (fun interval => (0 + interval) % 12) ∧
    get_scale_degree hChord (some "C") =
      get_scale_degree { hChord with root := "C" } (some "C") ∧
    get_scale_degree hChord (some "zz") =
      scale_degree_from ((NOTE_TO_PITCH hChord.root).getD 0)
        ((NOTE_TO_PITCH "C").getD 0) (is_minor_key_str "zz") :=
  ⟨C10_unknown_name_fallback.1 hChord (by decide),
   C10_unknown_name_fallback.2.1 hChord (by decide) (by decide),
   C10_unknown_name_fallback.2.2.1 hChord (some "C") (by decide) (by decide),
   C10_unknown_name_fallback.2.2.2 hChord "zz" (by decide) (by decide) (by decide)⟩

/-- `find?` ignores a filter whose test is implied by the search
predicate. -/
theorem find?_filter_of_imp (p q : String → Bool) (l : List String)
    (h : ∀ x, p x = true → q x = true) : (l.filter q).find? p = l.find? p := by
  induction l with
  | nil => rfl
  | cons c t ih =>
    by_cases hq : q c = true
    · rw [List.filter_cons_of_pos hq]
      by_cases hp : p c = true
      · rw [List.find?_cons_of_pos _ hp, List.find?_cons_of_pos _ hp]
      · rw [List.find?_cons_of_neg _ hp, List.find?_cons_of_neg _ hp, ih]
    · have hp : ¬ p c = true := fun hpc => hq (h c hpc)
      rw [List.filter_cons_of_neg hq, List.find?_cons_of_neg _ hp, ih]

/-- Searching the counter keys (first-occurrence order) finds the same
element as searching the full sequence, for a predicate that depends
only on the value. -/
theorem find?_keysInOrder (p : String → Bool) (l : List String) :
    (keysInOrder l).find? p = l.find? p := by
  induction l with
  | nil => rfl
  | cons c t ih =>
    simp only [keysInOrder]
    by_cases hp : p c = true
    · rw [List.find?_cons_of_pos _ hp, List.find?_cons_of_pos _ hp]
    · rw [List.find?_cons_of_neg _ hp, List.find?_cons_of_neg _ hp,
        find?_filter_of_imp p (fun y => y != c) _ ?_, ih]
      intro x hx
      have hne : x ≠ c := fun he => hp (he ▸ hx)
      simpa using hne

/-- A non-empty list has an element of maximal value. -/
theorem exists_max_on (f : String → Nat) :
    ∀ l : List String, l ≠ [] → ∃ x ∈ l, ∀ y ∈ l, f y ≤ f x := by
  intro l
  induction l with
  | nil => intro h; cases h rfl
  | cons a t ih =>
    intro _
    cases t with
    | nil => exact ⟨a, List.mem_singleton_self a, by simp⟩
    | cons b u =>
      obtain ⟨m, hm, hmax⟩ := ih (by simp)
      by_cases hle : f m ≤ f a
      · refine ⟨a, List.mem_cons_self a _, ?_⟩
        intro y hy
        rcases List.mem_cons.mp hy with rfl | hy2
        · exact le_refl _
        · exact le_trans (hmax y hy2) hle
      · refine ⟨m, List.mem_cons_of_mem a hm, ?_⟩
        intro y hy
        rcases List.mem_cons.mp hy with rfl | hy2
        · exact le_of_not_le hle
        · exact hmax y hy2

/-- C6: key detection returns `C` for the empty sequence; the
most-frequent-root-with-earliest-tie selection always exists for a
non-empty root list; whenever the specification-side selection picks
`r`, the detected key is `r` suffixed with `m` exactly when some chord
rooted at `r` has a minor suffix; and the `[Em,C,B,...]` example gives
`Em`. -/
theorem C6_detect_key :
    detect_key [] = "C" ∧
    (∀ roots : List String, roots ≠ [] → (specMostFrequentFirst roots).isSome) ∧
    (∀ (chords : List Chord) (r : String), chords ≠ [] →
      specMostFrequentFirst (rootsOf chords) = some r →
      detect_key chords =
        r ++ (if chords.any (fun c => c.root == r && minorSuffix c.suffix)
              then "m" else "")) ∧
    detect_key exampleChordsEm = "Em" := by
  refine ⟨by decide, ?_, ?_, by decide⟩
  · intro roots hne
    obtain ⟨x, hx, hmax⟩ := exists_max_on (fun y => countStr y roots) roots hne
    have hpred : maxCountPred roots x = true := by
      simp only [maxCountPred, List.all_eq_true, decide_eq_true_eq]
      exact hmax
    exact List.find?_isSome.mpr ⟨x, hx, hpred⟩
  · intro chords r hchords hfind
    have hroots_ne : rootsOf chords ≠ [] := by
      intro h0
      rw [specMostFrequentFirst, h0] at hfind
      simp at hfind
    have hmcr : most_common_root (rootsOf chords) = r := by
      unfold most_common_root
      rw [find?_keysInOrder]
      rw [show (rootsOf chords).find? (maxCountPred (rootsOf chords)) = some r from hfind]
      rfl
    cases chords with
    | nil => cases hchords rfl
    | cons c cs =>
      have h2 : (rootsOf (c :: cs)).isEmpty = false := by
        cases hrr : rootsOf (c :: cs)
        · exact absurd hrr hroots_ne
        · rfl
      simp only [detect_key, List.isEmpty_cons, h2, Bool.false_eq_true, if_false,
        hmcr]

/-- C6 (witness): the tie between the roots E and C (three occurrences
each) is broken in favour of E, and the E-rooted chords carry an `m`
suffix, so the example detects `Em`. -/
theorem C6_witness :
    detect_key exampleChordsEm =
      "E" ++ (if exampleChordsEm.any (fun c => c.root == "E" && minorSuffix c.suffix)
              then "m" else "") :=
  C6_detect_key.2.2.1 exampleChordsEm "E" (by decide) (by decide)

/-- C8: for a string count of 4 or 5 the fretboard is one row per
tuning string, high to low; each row has six cells for frets 0..5 whose
pitch is the open-string pitch class plus the fret, mod 12; a cell is
`BASS_NOTE` when its pitch equals the bass pitch class (taking
priority), else `CHORD_NOTE` when it is among the chord-tone pitch
classes, else `NOT_IN_CHORD`.  For `Am7` on 4 strings the G-string row
has a chord tone at fret 0 (pitch 7) and the bass note at fret 2
(pitch 9). -/
theorem C8_fretboard :
    (∀ (chord : Chord) (k : String) (sc : Nat), sc = 4 ∨ sc = 5 →
      ∃ grid, generate_fretboard chord (some k) sc = some grid ∧
        grid.map Prod.fst =
          (if sc = 4 then ["G", "D", "A", "E"] else ["G", "D", "A", "E", "B"]) ∧
        grid.map (fun row => row.2.map Prod.fst) =
          ((BASS_TUNINGS sc).getD []).map (fun sp =>
            (List.range 6).map (fun fret =>
              if (sp.2 % 12 + fret) % 12 = bass_pitch chord then NoteType.BASS_NOTE
              else if (sp.2 % 12 + fret) % 12 ∈ get_chord_note_pitches chord then
                NoteType.CHORD_NOTE
              else NoteType.NOT_IN_CHORD))) ∧
    (((generate_fretboard am7Chord (some "Em") 4).getD []).getD 0 ("", [])).2.map
        Prod.fst =
      [NoteType.CHORD_NOTE, NoteType.NOT_IN_CHORD, NoteType.BASS_NOTE,
       NoteType.NOT_IN_CHORD, NoteType.NOT_IN_CHORD, NoteType.CHORD_NOTE] := by
  refine ⟨?_, by decide⟩
  intro chord k sc hsc
  have cell : ∀ b fret : Nat,
      (let note_pitch := (b + fret) % 12
       let note_name :=
         if useSharpNames chord k then PITCH_TO_NOTE_SHARP note_pitch
         else PITCH_TO_NOTE_FLAT note_pitch
       if note_pitch = bass_pitch chord then (NoteType.BASS_NOTE, note_name)
       else if note_pitch ∈ get_chord_note_pitches chord then
         (NoteType.CHORD_NOTE, note_name)
       else (NoteType.NOT_IN_CHORD, note_name)).1 =
      (if (b % 12 + fret) % 12 = bass_pitch chord then NoteType.BASS_NOTE
       else if (b % 12 + fret) % 12 ∈ get_chord_note_pitches chord then
         NoteType.CHORD_NOTE
       else NoteType.NOT_IN_CHORD) := by
    intro b fret
    have hmod : (b % 12 + fret) % 12 = (b + fret) % 12 := by omega
    rw [hmod]
    dsimp only []
    split_ifs <;> rfl
  rcases hsc with rfl | rfl <;>
    refine ⟨_, rfl, by simp [BASS_TUNINGS], ?_⟩ <;>
    · rw [List.map_map]
      simp only [BASS_TUNINGS, Option.getD_some]
      refine List.map_congr_left ?_
      intro sp _
      dsimp only [Function.comp]
      rw [List.map_map]
      have hr : FRETS + 1 = 6 := rfl
      rw [hr]
      refine List.map_congr_left ?_
      intro fret _
      exact cell sp.2 fret

/-- C8 (witness): the general statement applied to `Am7` under key
`Em` on the 4-string tuning. -/
theorem C8_witness :
    ∃ grid, generate_fretboard am7Chord (some "Em") 4 = some grid ∧
      grid.map Prod.fst =
        (if 4 = 4 then ["G", "D", "A", "E"] else ["G", "D", "A", "E", "B"]) ∧
      grid.map (fun row => row.2.map Prod.fst) =
        ((BASS_TUNINGS 4).getD []).map (fun sp =>
          (List.range 6).map (fun fret =>
            if (sp.2 % 12 + fret) % 12 = bass_pitch am7Chord then NoteType.BASS_NOTE
            else if (sp.2 % 12 + fret) % 12 ∈ get_chord_note_pitches am7Chord then
              NoteType.CHORD_NOTE
            else NoteType.NOT_IN_CHORD)) :=
  C8_fretboard.1 am7Chord "Em" 4 (Or.inl rfl)

end BassAssistant
